import Mathlib

/-!
Verification development for the multi-source document downloader / text
extractor (`main.py`).  The Python program is shallowly embedded: its pure
text manipulations become Lean functions on `String` / `List Char`, the
filesystem becomes an explicit map from path strings to file contents (or
file sizes, where the code only ever reads `st_size`), and the per-item
download loops become state-passing recursions producing one outcome per
item.  Network behaviour (whether a given HTTP fetch succeeds and what it
serves) is part of each modelled item, since the code treats it as an
external input.
-/

namespace EpsteinDownloader

/-! ## Byte-string primitives

Python string operations used by the program, modelled on `List Char`
(`str.lower`, the `in` operator, `str.endswith`, `str.replace`,
`str.split('\n')`, `str.strip`, slicing). -/

/-- Model of `str.lower()` (character-wise lowercasing). -/
def pyLowerL (s : List Char) : List Char := s.map Char.toLower

/-- Model of `str.lower()` on `String`. -/
def pyLowerS (s : String) : String := String.mk (pyLowerL s.data)

/-- Boolean test: `pat` is a leading segment of `s` (Python `str.startswith`). -/
def hasPre : List Char → List Char → Bool
  | [], _ => true
  | _ :: _, [] => false
  | p :: ps, c :: cs => p == c && hasPre ps cs

/-- Boolean test: `pat` occurs contiguously inside `hay` (Python `in`). -/
def hasSub (pat : List Char) : List Char → Bool
  | [] => hasPre pat []
  | c :: rest => hasPre pat (c :: rest) || hasSub pat rest

/-- Boolean test: `pat` is a trailing segment of `s` (Python `str.endswith`). -/
def hasSuf (pat s : List Char) : Bool := hasPre pat.reverse s.reverse

theorem hasPre_iff (p : List Char) : ∀ (s : List Char), hasPre p s = true ↔ ∃ t, s = p ++ t := by
  induction p with
  | nil => intro s; simp [hasPre]
  | cons a ps ih =>
    intro s
    cases s with
    | nil => simp [hasPre]
    | cons c cs =>
      simp only [hasPre, Bool.and_eq_true, beq_iff_eq, ih cs]
      constructor
      · rintro ⟨rfl, t, rfl⟩; exact ⟨t, rfl⟩
      · rintro ⟨t, h⟩
        cases h
        exact ⟨rfl, t, rfl⟩

theorem hasSub_iff (p : List Char) :
    ∀ (s : List Char), hasSub p s = true ↔ ∃ u v, s = u ++ p ++ v := by
  intro s
  induction s with
  | nil =>
    simp only [hasSub, hasPre_iff]
    constructor
    · rintro ⟨t, h⟩; exact ⟨[], t, by simpa using h⟩
    · rintro ⟨u, v, h⟩
      refine ⟨v, ?_⟩
      have hu : u = [] := by
        cases u with
        | nil => rfl
        | cons a us => simp at h
      subst hu; simpa using h
  | cons c cs ih =>
    simp only [hasSub, Bool.or_eq_true, hasPre_iff, ih]
    constructor
    · rintro (⟨t, h⟩ | ⟨u, v, h⟩)
      · exact ⟨[], t, by simpa using h⟩
      · exact ⟨c :: u, v, by simp [h]⟩
    · rintro ⟨u, v, h⟩
      cases u with
      | nil => exact Or.inl ⟨v, by simpa using h⟩
      | cons a us =>
        simp only [List.cons_append, List.cons.injEq] at h
        exact Or.inr ⟨us, v, h.2⟩

/-- Model of `str.strip()`: drop whitespace from both ends. -/
def pyStripL (s : List Char) : List Char :=
  ((s.dropWhile Char.isWhitespace).reverse.dropWhile Char.isWhitespace).reverse

/-- Model of `str.split('\n')` (note `''.split('\n') == ['']`). -/
def splitNl : List Char → List (List Char)
  | [] => [[]]
  | c :: rest =>
    if c = '\n' then [] :: splitNl rest
    else
      match splitNl rest with
      | [] => [[c]]
      | l :: ls => (c :: l) :: ls

/-- Every piece produced by `splitNl` occurs contiguously in the input. -/
theorem splitNl_decomp :
    ∀ (c : List Char), (∃ m ms, splitNl c = m :: ms ∧ ∃ t, c = m ++ t) ∧
      ∀ l ∈ splitNl c, ∃ u v, c = u ++ l ++ v := by
  intro c
  induction c with
  | nil =>
    refine ⟨⟨[], [], rfl, [], rfl⟩, ?_⟩
    intro l hl
    simp only [splitNl, List.mem_singleton] at hl
    exact ⟨[], [], by simp [hl]⟩
  | cons ch rest ih =>
    obtain ⟨⟨m, ms, hsplit, t, ht⟩, hmem⟩ := ih
    by_cases hch : ch = '\n'
    · subst hch
      have hsp : splitNl ('\n' :: rest) = [] :: splitNl rest := by simp [splitNl]
      constructor
      · exact ⟨[], splitNl rest, hsp, '\n' :: rest, rfl⟩
      · intro l hl
        rw [hsp] at hl
        rcases List.mem_cons.mp hl with rfl | hl
        · exact ⟨[], '\n' :: rest, rfl⟩
        · obtain ⟨u, v, huv⟩ := hmem l hl
          exact ⟨'\n' :: u, v, by simp [huv]⟩
    · have hstep : splitNl (ch :: rest) = (ch :: m) :: ms := by
        simp only [splitNl, if_neg hch, hsplit]
      constructor
      · exact ⟨ch :: m, ms, hstep, t, by simp [ht]⟩
      · intro l hl
        rw [hstep] at hl
        rcases List.mem_cons.mp hl with rfl | hl
        · exact ⟨[], t, by simp [ht]⟩
        · obtain ⟨u, v, huv⟩ := hmem l (hsplit ▸ List.mem_cons_of_mem m hl)
          exact ⟨ch :: u, v, by simp [huv]⟩

/-- Python `str.replace(pat, rep)` on char lists: leftmost, non-overlapping,
replaces every occurrence.  Structural fuel recursion (fuel = input length,
which always suffices since each step consumes at least one character). -/
def replaceAllFuel (pat rep : List Char) : Nat → List Char → List Char
  | _, [] => []
  | 0, s => s
  | fuel + 1, c :: rest =>
    if hasPre pat (c :: rest) && !pat.isEmpty then
      rep ++ replaceAllFuel pat rep fuel (List.drop pat.length (c :: rest))
    else c :: replaceAllFuel pat rep fuel rest

/-- Model of Python `s.replace(pat, rep)`. -/
def pyReplace (s pat rep : String) : String :=
  String.mk (replaceAllFuel pat.data rep.data s.data.length s.data)

/-! ## Shared outcome / stats model

`FetchOutcome` per item and the per-run `stats` dict
(`{"downloaded": _, "skipped": _, "failed": _}`). -/

/-- One per-item outcome of a download loop. -/
inductive Outcome where
  | downloaded
  | skipped
  | failed
deriving DecidableEq

/-- The aggregated stats dictionary of one batch run. -/
structure Stats where
  downloaded : Nat
  skipped : Nat
  failed : Nat
deriving DecidableEq

/-- Counting outcomes into the stats dict (`stats[result] += 1` per item). -/
def statsOf (os : List Outcome) : Stats :=
  ⟨os.countP (fun o => o = Outcome.downloaded),
   os.countP (fun o => o = Outcome.skipped),
   os.countP (fun o => o = Outcome.failed)⟩

theorem statsOf_total (os : List Outcome) :
    (statsOf os).downloaded + (statsOf os).skipped + (statsOf os).failed = os.length := by
  induction os with
  | nil => rfl
  | cons o rest ih =>
    simp only [statsOf, List.countP_cons] at ih ⊢
    cases o <;> simp <;> omega

/-! ## Internet-Archive orchestrator (`download_from_internet_archive`)

The loop body over `pdf_files`: the local store is a map from filename to
file size (the loop reads only `dest_path.stat().st_size`).  Each listed
item carries its manifest fields (`name`, optional `size`) together with
the network behaviour of its download endpoint: whether `download_file`
succeeds, how many bytes a successful download writes, and how many bytes
(if any) an aborted attempt leaves behind (partial writes are left in
place). -/

/-- Local PDF store of one source directory: filename to byte size. -/
abbrev SizeFS := String → Option Nat

/-- Pointwise store update (a completed write of `v` bytes at `n`). -/
def sizeUpdate (fs : SizeFS) (n : String) (v : Nat) : SizeFS :=
  fun m => if m = n then some v else fs m

/-- One listed Internet-Archive file plus the behaviour of its download URL. -/
structure IAItem where
  /-- manifest `name` field. -/
  name : String
  /-- manifest `size` field; `pdf.get("size", 0)` defaults an absent field to 0. -/
  declaredSize : Option Nat
  /-- byte length a successful `download_file` leaves at the destination. -/
  contentLen : Nat
  /-- whether `download_file` returns `True` for this item's URL. -/
  fetchOk : Bool
  /-- byte count a failed attempt leaves behind (`none` = nothing written). -/
  failLen : Option Nat
deriving DecidableEq

/-- `expected_size = int(pdf.get("size", 0))`. -/
def expectedOf (it : IAItem) : Nat := it.declaredSize.getD 0

/-- The completeness check guarding the skip:
`dest_path.exists() and abs(dest_path.stat().st_size - expected_size) < 1024`. -/
def iaCheck (fs : SizeFS) (it : IAItem) : Bool :=
  match fs it.name with
  | some actual => decide (((actual : Int) - (expectedOf it : Int)).natAbs < 1024)
  | none => false

/-- One iteration of the `for pdf in pdf_files` loop: skip when the
completeness check passes, otherwise attempt the download. -/
def iaProcessItem (fs : SizeFS) (it : IAItem) : Outcome × SizeFS :=
  if iaCheck fs it then (Outcome.skipped, fs)
  else if it.fetchOk then (Outcome.downloaded, sizeUpdate fs it.name it.contentLen)
  else (Outcome.failed,
    match it.failLen with
    | some n => sizeUpdate fs it.name n
    | none => fs)

/-- The whole per-source item loop, pairing every listed item with its
outcome and threading the store. -/
def iaRun : SizeFS → List IAItem → List (IAItem × Outcome) × SizeFS
  | fs, [] => ([], fs)
  | fs, it :: rest =>
    ((it, (iaProcessItem fs it).1) :: (iaRun (iaProcessItem fs it).2 rest).1,
     (iaRun (iaProcessItem fs it).2 rest).2)

/-- `pdf_files = [f for f in files if f.get("name", "").lower().endswith(".pdf")]`. -/
def iaPdfFilter (files : List IAItem) : List IAItem :=
  files.filter (fun f => hasSuf ".pdf".data (pyLowerS f.name).data)

/-- `download_from_internet_archive`, from the point where the manifest
listing is in hand: filter to PDFs and run the item loop. -/
def download_from_internet_archive (fs : SizeFS) (files : List IAItem) :
    List (IAItem × Outcome) × SizeFS :=
  iaRun fs (iaPdfFilter files)

/-! ## Record Normalizer and GitHub orchestrator (`download_github_folder`)

A fetched JSON record (`json_data`) with its three optional fields, the
flat-text rendering built in `download_one`, and the per-folder loop.  The
destination store maps derived text filenames to file contents. -/

/-- An entity value: a JSON list of strings or a scalar (rendered via
`str`, modelled as the rendered string). -/
inductive EntityVal where
  | scalar (s : String)
  | listVal (es : List String)
deriving DecidableEq

/-- A parsed JSON record; each field may be absent
(`json_data.get(..., default)`). -/
structure JsonRecord where
  full_text : Option String
  document_metadata : Option (List (String × String))
  entities : Option (List (String × EntityVal))
deriving DecidableEq

/-- A 70-character banner line (`"=" * 70`, `"-" * 70`). -/
def bar70 (c : Char) : String := String.mk (List.replicate 70 c)

/-- One `ENTITIES` block line: skipped entirely when the value is falsy
(`if elist:`), list values joined with `", "`, scalars rendered directly. -/
def entityLine (kv : String × EntityVal) : Option String :=
  match kv.2 with
  | EntityVal.listVal [] => none
  | EntityVal.listVal es => some (kv.1 ++ ": " ++ String.intercalate ", " es)
  | EntityVal.scalar s => if s.isEmpty then none else some (kv.1 ++ ": " ++ s)

/-- The `lines` list built in `download_one`: metadata block, optional
entities block (only when the entities mapping is truthy), full-text block. -/
def normalizeLines (r : JsonRecord) : List String :=
  ([bar70 '=', "DOCUMENT METADATA", bar70 '=']
    ++ (r.document_metadata.getD []).map (fun kv => kv.1 ++ ": " ++ kv.2))
  ++ (if (r.entities.getD []).isEmpty then []
      else ["\n" ++ bar70 '-', "ENTITIES", bar70 '-']
        ++ (r.entities.getD []).filterMap entityLine)
  ++ ["\n" ++ bar70 '=', "FULL TEXT", bar70 '=', r.full_text.getD ""]

/-- `'\n'.join(lines)`: the content written to the derived text file. -/
def renderRecord (r : JsonRecord) : String :=
  String.intercalate "\n" (normalizeLines r)

/-- Destination store of a GitHub folder: derived filename to file content. -/
abbrev TextFS := String → Option String

/-- Pointwise text-store update (writing `c` at path `n`). -/
def textUpdate (fs : TextFS) (n : String) (c : String) : TextFS :=
  fun m => if m = n then some c else fs m

/-- `txt_filename = filename.replace(".json", ".txt")`: every occurrence of
`".json"` is replaced, not only a trailing extension. -/
def txtNameOf (name : String) : String := pyReplace name ".json" ".txt"

/-- One listed GitHub folder entry plus the behaviour of its
`download_url`: whether `get_json` returns a truthy record, and the record. -/
structure GHItem where
  name : String
  fetchOk : Bool
  record : JsonRecord
deriving DecidableEq

/-- `download_one`: skip when the derived `.txt` already exists, otherwise
fetch the record, render it and write the text file; any fetch problem
yields `failed`. -/
def download_one (dfs : TextFS) (it : GHItem) : Outcome × TextFS :=
  if (dfs (txtNameOf it.name)).isSome then (Outcome.skipped, dfs)
  else if it.fetchOk then
    (Outcome.downloaded, textUpdate dfs (txtNameOf it.name) (renderRecord it.record))
  else (Outcome.failed, dfs)

/-- The per-folder batch: one `download_one` per eligible item, pairing
each item with its outcome.  (In the source the pool runs items
concurrently; every worker owns a distinct destination path and outcomes
are tallied one per item, which this sequential threading models.) -/
def ghRun : TextFS → List GHItem → List (GHItem × Outcome) × TextFS
  | dfs, [] => ([], dfs)
  | dfs, it :: rest =>
    ((it, (download_one dfs it).1) :: (ghRun (download_one dfs it).2 rest).1,
     (ghRun (download_one dfs it).2 rest).2)

/-- `json_files = [f for f in data if f["name"].endswith(".json")]`. -/
def ghJsonFilter (items : List GHItem) : List GHItem :=
  items.filter (fun f => hasSuf ".json".data f.name.data)

/-- `download_github_folder`, from the point where the folder listing is in
hand: filter to `.json` entries and run the batch. -/
def download_github_folder (dfs : TextFS) (items : List GHItem) :
    List (GHItem × Outcome) × TextFS :=
  ghRun dfs (ghJsonFilter items)

/-! ## Text extraction driver (`extract_all_pdfs`)

The walk over the binary-document tree, the per-file skip/extract/write
step, and the opportunistic sensitive-pattern scan.  The regular-expression
engine (`re.findall`) is an external capability of the runtime: it is
passed in as a function from pattern and text to the list of matches, and
the two concrete pattern strings of the source are carried verbatim. -/

/-- The walk `list(pdf_dir.rglob("*.pdf")) + list(pdf_dir.rglob("*.PDF"))`
over the file names under the tree: two case-sensitive suffix globs. -/
def rglobPdfs (names : List String) : List String :=
  names.filter (fun n => hasSuf ".pdf".data n.data)
    ++ names.filter (fun n => hasSuf ".PDF".data n.data)

/-- `r'\b\d{3}[-.]?\d{3}[-.]?\d{4}\b'` (phone-number-shaped substrings). -/
def phonePattern : String := "\\b\\d\x7b3\x7d[-.]?\\d\x7b3\x7d[-.]?\\d\x7b4\x7d\\b"

/-- `r'\b[A-Za-z0-9._%+-]+@[A-Za-z0-9.-]+\.[A-Z|a-z]{2,}\b'` (email-shaped
substrings). -/
def emailPattern : String := "\\b[A-Za-z0-9._%+-]+@[A-Za-z0-9.-]+\\.[A-Z|a-z]\x7b2,\x7d\\b"

/-- The ordered `patterns` list of `extract_all_pdfs`. -/
def patternsList : List (String × String) :=
  [(phonePattern, "phone numbers"), (emailPattern, "emails")]

/-- One entry of `interesting_finds`. -/
structure Finding where
  file : String
  type : String
  samples : List String
deriving DecidableEq

/-- The `for pattern, desc in patterns` loop with its `break`: the first
pattern family with any match contributes one finding (first five matches
as samples) and ends the scan. -/
def scanLoop (findall : String → String → List String) (relPath text : String) :
    List (String × String) → List Finding
  | [] => []
  | pd :: rest =>
    if (findall pd.1 text).isEmpty then scanLoop findall relPath text rest
    else [⟨relPath, pd.2, (findall pd.1 text).take 5⟩]

/-- The per-file pattern scan over the source's `patterns` list. -/
def scanPatterns (findall : String → String → List String) (relPath text : String) :
    List Finding :=
  scanLoop findall relPath text patternsList

/-- One PDF under the tree, with the behaviour of its extraction: whether
`extract_pdf_text` plus the write complete without raising, the text
produced, and the page metadata. -/
structure PdfFile where
  relPath : String
  extractOk : Bool
  text : String
  pages : Option Nat
  blankPages : Option Nat
deriving DecidableEq

/-- `pathlib`'s `with_suffix(".txt")` on the path string: the extension of
the final component is replaced (or `.txt` appended when there is none). -/
def withSuffixTxt (s : String) : String :=
  match (s.data.reverse.dropWhile (fun c => c ≠ '.' && c ≠ '/')) with
  | '.' :: rest => String.mk (rest.reverse ++ ".txt".data)
  | _ => String.mk (s.data ++ ".txt".data)

/-- `metadata.get('pages', 'unknown')` rendering. -/
def renderOptNat : Option Nat → String
  | some n => toString n
  | none => "unknown"

/-- `pdf_path.name`: final path component. -/
def baseNameOf (s : String) : String :=
  String.mk ((s.data.reverse.takeWhile (fun c => c ≠ '/')).reverse)

/-- The header plus extracted text written to the derived `.txt` file. -/
def extractedContent (p : PdfFile) : String :=
  "SOURCE: " ++ baseNameOf p.relPath ++ "\n"
    ++ "PAGES: " ++ renderOptNat p.pages ++ "\n"
    ++ "BLANK PAGES: " ++ renderOptNat p.blankPages ++ "\n"
    ++ bar70 '=' ++ "\n\n" ++ p.text

/-- Per-extraction outcome (`processed` / `skipped` / `failed` keys of the
stats dict of `extract_all_pdfs`). -/
inductive EOutcome where
  | processed
  | skipped
  | failed
deriving DecidableEq

/-- One iteration of the extraction loop: skip when the derived text file
already exists, otherwise extract, write, and scan for patterns. -/
def extractStep (findall : String → String → List String) (tfs : TextFS)
    (finds : List Finding) (p : PdfFile) : EOutcome × TextFS × List Finding :=
  if (tfs (withSuffixTxt p.relPath)).isSome then (EOutcome.skipped, tfs, finds)
  else if p.extractOk then
    (EOutcome.processed,
     textUpdate tfs (withSuffixTxt p.relPath) (extractedContent p),
     finds ++ scanPatterns findall p.relPath p.text)
  else (EOutcome.failed, tfs, finds)

/-- The extraction loop over the walked PDF list, threading the corpus
store and the accumulated findings. -/
def extractRun (findall : String → String → List String) :
    TextFS → List Finding → List PdfFile →
    List (PdfFile × EOutcome) × TextFS × List Finding
  | tfs, finds, [] => ([], tfs, finds)
  | tfs, finds, p :: rest =>
    ((p, (extractStep findall tfs finds p).1)
        :: (extractRun findall (extractStep findall tfs finds p).2.1
              (extractStep findall tfs finds p).2.2 rest).1,
     (extractRun findall (extractStep findall tfs finds p).2.1
        (extractStep findall tfs finds p).2.2 rest).2)

/-- `extract_all_pdfs`, from the walked file list: run the loop with an
empty findings accumulator. -/
def extract_all_pdfs (findall : String → String → List String) (tfs : TextFS)
    (pdfs : List PdfFile) : List (PdfFile × EOutcome) × TextFS × List Finding :=
  extractRun findall tfs [] pdfs

/-! ## Corpus search (`search_all`)

Files are (path, content) pairs of char lists; the scan is a
case-insensitive substring test per file and then per line, recording
1-based line numbers and stripped lines truncated to 100 characters. -/

/-- The `for i, line in enumerate(content.split('\n'))` loop collecting
`(i + 1, line.strip()[:100])` for matching lines. -/
def collectMatches (term : List Char) : Nat → List (List Char) → List (Nat × List Char)
  | _, [] => []
  | i, l :: rest =>
    if hasSub (pyLowerL term) (pyLowerL l) then
      (i + 1, (pyStripL l).take 100) :: collectMatches term (i + 1) rest
    else collectMatches term (i + 1) rest

/-- Per-file search: the guarding whole-content test, then the line scan;
`matches[:5]` is what gets recorded. -/
def searchFile (term content : List Char) : Option (List (Nat × List Char)) :=
  if hasSub (pyLowerL term) (pyLowerL content) then
    some ((collectMatches term 0 (splitNl content)).take 5)
  else none

/-- `search_all` over the walked text files (unreadable files never reach
the matcher; decoding is best-effort in the source). -/
def search_all (term : List Char) (files : List (List Char × List Char)) :
    List (List Char × List (Nat × List Char)) :=
  files.filterMap (fun fc => (searchFile term fc.2).map (fun ms => (fc.1, ms)))

/-- Definition following the spec's words for the derived-filename mapping
("replacing the source extension `.json` with `.txt`"), to be compared with
the source's `txtNameOf`. -/
def replaceExtSpec (name : String) : String :=
  if hasSuf ".json".data name.data then
    String.mk (name.data.take (name.data.length - 5) ++ ".txt".data)
  else name

/-! ## Claim theorems -/

/-- C2 counterexample: an existing 4096-byte local file whose manifest entry
has no `size` field is re-fetched (outcome `downloaded`), not `Skipped`,
because the defaulted expected size 0 makes `abs(4096 - 0) < 1024` fail. -/
theorem ia_zero_size_refetches_large_file :
    (iaProcessItem (fun n => if n = "big.pdf" then some 4096 else none)
      ⟨"big.pdf", none, 4096, true, none⟩).1 = Outcome.downloaded := by decide

/-- C2 (amended): when the manifest entry has no size field the expected
size defaults to 0, and an existing local file is then `Skipped` iff its
actual size is under 1024 bytes; files of 1024 bytes or more are
re-fetched. -/
theorem ia_absent_size_skip_iff_small (fs : SizeFS) (it : IAItem) (sz : Nat)
    (hd : it.declaredSize = none) (hf : fs it.name = some sz) :
    (iaProcessItem fs it).1 = Outcome.skipped ↔ sz < 1024 := by
  have hexp : expectedOf it = 0 := by simp [expectedOf, hd]
  have hchk : iaCheck fs it = decide (sz < 1024) := by
    unfold iaCheck
    rw [hf]
    show decide (((sz : Int) - (expectedOf it : Int)).natAbs < 1024) = decide (sz < 1024)
    have h0 : ((sz : Int) - ((0 : Nat) : Int)).natAbs = sz := by simp
    rw [hexp, h0]
  by_cases hdist : sz < 1024
  · simp [iaProcessItem, hchk, hdist]
  · cases hfk : it.fetchOk <;> simp [iaProcessItem, hchk, hdist, hfk]

/-- C2 witness: a 500-byte local file with no declared size is skipped. -/
theorem ia_absent_size_skip_iff_small_witness :
    (⟨"s.pdf", none, 500, true, none⟩ : IAItem).declaredSize = none ∧
    ((fun n => if n = "s.pdf" then some 500 else none) : SizeFS) "s.pdf" = some 500 ∧
    ((iaProcessItem (fun n => if n = "s.pdf" then some 500 else none)
        ⟨"s.pdf", none, 500, true, none⟩).1 = Outcome.skipped ↔ 500 < 1024) :=
  ⟨rfl, rfl,
   ia_absent_size_skip_iff_small (fun n => if n = "s.pdf" then some 500 else none)
     ⟨"s.pdf", none, 500, true, none⟩ 500 rfl rfl⟩

/-- C3: with a declared remote size, an existing local file is treated as
complete (`Skipped`) iff its size differs from the declared size by
strictly less than 1024 bytes; at a difference of 1024 or more a fetch is
attempted (outcome `downloaded` or `failed` by the fetch result). -/
theorem ia_completeness_tolerance (fs : SizeFS) (it : IAItem) (esz sz : Nat)
    (hd : it.declaredSize = some esz) (hf : fs it.name = some sz) :
    ((iaProcessItem fs it).1 = Outcome.skipped ↔
      ((sz : Int) - (esz : Int)).natAbs < 1024) ∧
    (1024 ≤ ((sz : Int) - (esz : Int)).natAbs →
      (iaProcessItem fs it).1 =
        (if it.fetchOk then Outcome.downloaded else Outcome.failed)) := by
  have hexp : expectedOf it = esz := by simp [expectedOf, hd]
  have hchk : iaCheck fs it = decide (((sz : Int) - (esz : Int)).natAbs < 1024) := by
    unfold iaCheck
    rw [hf]
    show decide (((sz : Int) - (expectedOf it : Int)).natAbs < 1024) =
      decide (((sz : Int) - (esz : Int)).natAbs < 1024)
    rw [hexp]
  by_cases hdist : ((sz : Int) - (esz : Int)).natAbs < 1024
  · constructor
    · simp [iaProcessItem, hchk, hdist]
    · intro h; omega
  · constructor
    · cases hfk : it.fetchOk <;> simp [iaProcessItem, hchk, hdist, hfk]
    · intro _
      cases hfk : it.fetchOk <;> simp [iaProcessItem, hchk, hdist, hfk]

/-- C3 witness: declared size 5000, actual size 5000: skipped. -/
theorem ia_completeness_tolerance_witness :
    (⟨"f.pdf", some 5000, 5000, true, none⟩ : IAItem).declaredSize = some 5000 ∧
    ((fun n => if n = "f.pdf" then some 5000 else none) : SizeFS) "f.pdf" = some 5000 ∧
    (((iaProcessItem (fun n => if n = "f.pdf" then some 5000 else none)
        ⟨"f.pdf", some 5000, 5000, true, none⟩).1 = Outcome.skipped ↔
      ((5000 : Int) - ((5000 : Nat) : Int)).natAbs < 1024) ∧
     (1024 ≤ ((5000 : Int) - ((5000 : Nat) : Int)).natAbs →
      (iaProcessItem (fun n => if n = "f.pdf" then some 5000 else none)
        ⟨"f.pdf", some 5000, 5000, true, none⟩).1 =
        (if (⟨"f.pdf", some 5000, 5000, true, none⟩ : IAItem).fetchOk
         then Outcome.downloaded else Outcome.failed))) :=
  ⟨rfl, rfl,
   ia_completeness_tolerance (fun n => if n = "f.pdf" then some 5000 else none)
     ⟨"f.pdf", some 5000, 5000, true, none⟩ 5000 5000 rfl rfl⟩

/-- C5 counterexample: the code's derived name replaces every occurrence of
`".json"`, so for the eligible name `"a.json.json"` it produces
`"a.txt.txt"`, not the extension-replacement `"a.json.txt"`. -/
theorem txt_name_not_extension_replacement :
    txtNameOf "a.json.json" = "a.txt.txt" ∧
    replaceExtSpec "a.json.json" = "a.json.txt" ∧
    txtNameOf "a.json.json" ≠ replaceExtSpec "a.json.json" := by decide

/-- C5 (amended): the derived output filename replaces every occurrence of
`".json"` by `".txt"` (which agrees with extension replacement when
`".json"` occurs only as the suffix), and the skip check of `download_one`
is performed against this derived name: the item is skipped iff the derived
name exists in the local inventory. -/
theorem gh_skip_checks_derived_name (dfs : TextFS) (it : GHItem) :
    ((download_one dfs it).1 = Outcome.skipped ↔
      (dfs (txtNameOf it.name)).isSome = true) ∧
    txtNameOf "page_001.json" = "page_001.txt" := by
  constructor
  · by_cases h : (dfs (txtNameOf it.name)).isSome
    · simp [download_one, h]
    · cases hfk : it.fetchOk <;> simp [download_one, h, hfk]
  · decide

/-- C5 witness: a folder store already holding `page_001.txt` skips the
record `page_001.json`. -/
theorem gh_skip_checks_derived_name_witness :
    ((download_one (fun n => if n = "page_001.txt" then some "x" else none)
        ⟨"page_001.json", true, ⟨none, none, none⟩⟩).1 = Outcome.skipped ↔
      (((fun n => if n = "page_001.txt" then some "x" else none) : TextFS)
        (txtNameOf (⟨"page_001.json", true, ⟨none, none, none⟩⟩ : GHItem).name)).isSome = true) ∧
    txtNameOf "page_001.json" = "page_001.txt" :=
  gh_skip_checks_derived_name (fun n => if n = "page_001.txt" then some "x" else none)
    ⟨"page_001.json", true, ⟨none, none, none⟩⟩

/-- C6: on `{document_metadata: {"a":"1","b":"2"}, entities: {}, full_text:
"hello"}` the rendered lines are exactly the banner block, the two metadata
lines in insertion order (`a: 1` before `b: 2`), no `ENTITIES` header, and
the full-text block ending in `hello`; and a record with all three keys
missing renders as if they were the empty mapping / empty mapping / empty
string. -/
theorem record_normalizer_deterministic :
    normalizeLines ⟨some "hello", some [("a", "1"), ("b", "2")], some []⟩ =
      [bar70 '=', "DOCUMENT METADATA", bar70 '=', "a: 1", "b: 2",
       "\n" ++ bar70 '=', "FULL TEXT", bar70 '=', "hello"] ∧
    "ENTITIES" ∉ normalizeLines ⟨some "hello", some [("a", "1"), ("b", "2")], some []⟩ ∧
    hasSuf "\nhello".data
      (renderRecord ⟨some "hello", some [("a", "1"), ("b", "2")], some []⟩).data = true ∧
    normalizeLines ⟨none, none, none⟩ = normalizeLines ⟨some "", some [], some []⟩ :=
  ⟨rfl, by decide, by decide, rfl⟩

/-- C7: when the text matches the phone pattern (and also the email
pattern), the scan records exactly one finding for the file — the
phone-number family with the first five matches as samples — because the
loop breaks at the first matching family. -/
theorem pattern_scan_first_family (findall : String → String → List String)
    (relPath text : String)
    (hp : findall phonePattern text ≠ [])
    ( _he : findall emailPattern text ≠ []) :
    scanPatterns findall relPath text =
      [⟨relPath, "phone numbers", (findall phonePattern text).take 5⟩] ∧
    ∀ fd ∈ scanPatterns findall relPath text, fd.samples.length ≤ 5 := by
  have h1 : (findall phonePattern text).isEmpty = false := by
    cases h : findall phonePattern text
    · exact absurd h hp
    · rfl
  have hres : scanPatterns findall relPath text =
      [⟨relPath, "phone numbers", (findall phonePattern text).take 5⟩] := by
    simp [scanPatterns, scanLoop, patternsList, h1]
  refine ⟨hres, ?_⟩
  intro fd hfd
  rw [hres] at hfd
  rcases List.mem_singleton.mp hfd with rfl
  exact List.length_take_le 5 (findall phonePattern text)

/-- C7 witness: a matcher returning matches for both families on a concrete
text yields the single phone finding. -/
theorem pattern_scan_first_family_witness :
    (fun p (_ : String) =>
        if p = phonePattern then ["555-123-4567", "555-999-0000"]
        else ["bob@example.com"]) phonePattern "call 555-123-4567" ≠ [] ∧
    (fun p (_ : String) =>
        if p = phonePattern then ["555-123-4567", "555-999-0000"]
        else ["bob@example.com"]) emailPattern "call 555-123-4567" ≠ [] ∧
    (scanPatterns
        (fun p (_ : String) =>
          if p = phonePattern then ["555-123-4567", "555-999-0000"]
          else ["bob@example.com"]) "doc.pdf" "call 555-123-4567" =
      [⟨"doc.pdf", "phone numbers",
        (["555-123-4567", "555-999-0000"] : List String).take 5⟩] ∧
     ∀ fd ∈ scanPatterns
        (fun p (_ : String) =>
          if p = phonePattern then ["555-123-4567", "555-999-0000"]
          else ["bob@example.com"]) "doc.pdf" "call 555-123-4567",
        fd.samples.length ≤ 5) := by
  refine ⟨by decide, by decide, ?_⟩
  have h := pattern_scan_first_family
    (fun p (_ : String) =>
      if p = phonePattern then ["555-123-4567", "555-999-0000"]
      else ["bob@example.com"]) "doc.pdf" "call 555-123-4567" (by decide) (by decide)
  simp at h
  simp [h]

/-- C9 counterexample: a file named `scan.Pdf` has the document extension
in a mixed letter-case, yet the walk (two case-sensitive globs `*.pdf` and
`*.PDF`) does not select it. -/
theorem pdf_walk_misses_mixed_case :
    rglobPdfs ["scan.Pdf"] = [] ∧
    hasSuf ".pdf".data (pyLowerS "scan.Pdf").data = true := by decide

/-- C9 (amended): the walk selects exactly the files whose name ends in
`".pdf"` or `".PDF"` verbatim; other case mixtures of the extension are not
selected. -/
theorem pdf_walk_membership (names : List String) (n : String) :
    n ∈ rglobPdfs names ↔
      n ∈ names ∧
        (hasSuf ".pdf".data n.data = true ∨ hasSuf ".PDF".data n.data = true) := by
  simp only [rglobPdfs, List.mem_append, List.mem_filter]
  tauto

/-- C9 witness: `a.pdf` is selected from a one-file tree. -/
theorem pdf_walk_membership_witness :
    "a.pdf" ∈ rglobPdfs ["a.pdf"] ↔
      "a.pdf" ∈ ["a.pdf"] ∧
        (hasSuf ".pdf".data "a.pdf".data = true ∨ hasSuf ".PDF".data "a.pdf".data = true) :=
  pdf_walk_membership ["a.pdf"] "a.pdf"

theorem iaRun_fst (items : List IAItem) :
    ∀ fs : SizeFS, (iaRun fs items).1.map Prod.fst = items := by
  induction items with
  | nil => intro fs; rfl
  | cons it rest ih => intro fs; simp [iaRun, ih]

theorem ghRun_fst (items : List GHItem) :
    ∀ dfs : TextFS, (ghRun dfs items).1.map Prod.fst = items := by
  induction items with
  | nil => intro dfs; rfl
  | cons it rest ih => intro dfs; simp [ghRun, ih]

/-- C10: every eligible item of a batch receives exactly one of the three
outcomes and nothing is dropped: each run pairs the eligible item list
one-to-one with outcomes (so every listed item is attempted, regardless of
other items' failures), and the tallied stats satisfy
`downloaded + skipped + failed = number of eligible items` — for the GitHub
folder batch and for the Internet-Archive per-source loop alike. -/
theorem batch_stats_conservation (fs : SizeFS) (files : List IAItem)
    (dfs : TextFS) (gitems : List GHItem) :
    ((download_from_internet_archive fs files).1.map Prod.fst = iaPdfFilter files) ∧
    ((statsOf ((download_from_internet_archive fs files).1.map Prod.snd)).downloaded
      + (statsOf ((download_from_internet_archive fs files).1.map Prod.snd)).skipped
      + (statsOf ((download_from_internet_archive fs files).1.map Prod.snd)).failed
      = (iaPdfFilter files).length) ∧
    ((download_github_folder dfs gitems).1.map Prod.fst = ghJsonFilter gitems) ∧
    ((statsOf ((download_github_folder dfs gitems).1.map Prod.snd)).downloaded
      + (statsOf ((download_github_folder dfs gitems).1.map Prod.snd)).skipped
      + (statsOf ((download_github_folder dfs gitems).1.map Prod.snd)).failed
      = (ghJsonFilter gitems).length) := by
  refine ⟨iaRun_fst (iaPdfFilter files) fs, ?_, ghRun_fst (ghJsonFilter gitems) dfs, ?_⟩
  · rw [statsOf_total]
    rw [List.length_map]
    have h := congrArg List.length (iaRun_fst (iaPdfFilter files) fs)
    rw [List.length_map] at h
    exact h
  · rw [statsOf_total]
    rw [List.length_map]
    have h := congrArg List.length (ghRun_fst (ghJsonFilter gitems) dfs)
    rw [List.length_map] at h
    exact h

/-- C10 witness: a two-item batch (one fetch failing) still pairs both
items and tallies to 2. -/
theorem batch_stats_conservation_witness :
    ((download_from_internet_archive (fun _ => none)
        [⟨"a.pdf", some 10, 10, true, none⟩, ⟨"b.pdf", some 10, 10, false, none⟩]).1.map
      Prod.fst =
      iaPdfFilter [⟨"a.pdf", some 10, 10, true, none⟩, ⟨"b.pdf", some 10, 10, false, none⟩]) ∧
    ((statsOf ((download_from_internet_archive (fun _ => none)
        [⟨"a.pdf", some 10, 10, true, none⟩, ⟨"b.pdf", some 10, 10, false, none⟩]).1.map
          Prod.snd)).downloaded
      + (statsOf ((download_from_internet_archive (fun _ => none)
        [⟨"a.pdf", some 10, 10, true, none⟩, ⟨"b.pdf", some 10, 10, false, none⟩]).1.map
          Prod.snd)).skipped
      + (statsOf ((download_from_internet_archive (fun _ => none)
        [⟨"a.pdf", some 10, 10, true, none⟩, ⟨"b.pdf", some 10, 10, false, none⟩]).1.map
          Prod.snd)).failed
      = (iaPdfFilter
          [⟨"a.pdf", some 10, 10, true, none⟩, ⟨"b.pdf", some 10, 10, false, none⟩]).length) ∧
    ((download_github_folder (fun _ => none)
        [⟨"r.json", false, ⟨none, none, none⟩⟩]).1.map Prod.fst =
      ghJsonFilter [⟨"r.json", false, ⟨none, none, none⟩⟩]) ∧
    ((statsOf ((download_github_folder (fun _ => none)
        [⟨"r.json", false, ⟨none, none, none⟩⟩]).1.map Prod.snd)).downloaded
      + (statsOf ((download_github_folder (fun _ => none)
        [⟨"r.json", false, ⟨none, none, none⟩⟩]).1.map Prod.snd)).skipped
      + (statsOf ((download_github_folder (fun _ => none)
        [⟨"r.json", false, ⟨none, none, none⟩⟩]).1.map Prod.snd)).failed
      = (ghJsonFilter [⟨"r.json", false, ⟨none, none, none⟩⟩]).length) :=
  batch_stats_conservation (fun _ => none)
    [⟨"a.pdf", some 10, 10, true, none⟩, ⟨"b.pdf", some 10, 10, false, none⟩]
    (fun _ => none) [⟨"r.json", false, ⟨none, none, none⟩⟩]

theorem hasSub_of_decomp {t l c : List Char} (h : hasSub t l = true)
    (hd : ∃ u v, c = u ++ l ++ v) : hasSub t c = true := by
  obtain ⟨u1, v1, hl⟩ := (hasSub_iff t l).mp h
  obtain ⟨u, v, rfl⟩ := hd
  exact (hasSub_iff t _).mpr ⟨u ++ u1, v1 ++ v, by simp [hl]⟩

theorem collectMatches_mem (term : List Char) :
    ∀ (ls : List (List Char)) (i : Nat) (p : Nat × List Char),
      p ∈ collectMatches term i ls →
      i + 1 ≤ p.1 ∧ ∃ l, ls.get? (p.1 - 1 - i) = some l ∧
        hasSub (pyLowerL term) (pyLowerL l) = true ∧ p.2 = (pyStripL l).take 100 := by
  intro ls
  induction ls with
  | nil => intro i p hp; simp [collectMatches] at hp
  | cons l0 rest ih =>
    intro i p hp
    simp only [collectMatches] at hp
    rcases Bool.eq_false_or_eq_true (hasSub (pyLowerL term) (pyLowerL l0)) with h0 | h0
    · rw [if_pos h0] at hp
      rcases List.mem_cons.mp hp with rfl | hp
      · refine ⟨by omega, l0, ?_, h0, rfl⟩
        simp
      · obtain ⟨h1, l, hget, hsub, hp2⟩ := ih (i + 1) p hp
        refine ⟨by omega, l, ?_, hsub, hp2⟩
        have harith : p.1 - 1 - i = (p.1 - 1 - (i + 1)) + 1 := by omega
        rw [harith]
        simpa using hget
    · have hneg : ¬ hasSub (pyLowerL term) (pyLowerL l0) = true := by simp [h0]
      rw [if_neg hneg] at hp
      obtain ⟨h1, l, hget, hsub, hp2⟩ := ih (i + 1) p hp
      refine ⟨by omega, l, ?_, hsub, hp2⟩
      have harith : p.1 - 1 - i = (p.1 - 1 - (i + 1)) + 1 := by omega
      rw [harith]
      simpa using hget

theorem collectMatches_ne_nil (term : List Char) :
    ∀ (ls : List (List Char)) (i : Nat),
      (∃ l ∈ ls, hasSub (pyLowerL term) (pyLowerL l) = true) →
      collectMatches term i ls ≠ [] := by
  intro ls
  induction ls with
  | nil => intro i h; simp at h
  | cons l0 rest ih =>
    intro i h
    simp only [collectMatches]
    rcases Bool.eq_false_or_eq_true (hasSub (pyLowerL term) (pyLowerL l0)) with h0 | h0
    · rw [if_pos h0]
      simp
    · have hneg : ¬ hasSub (pyLowerL term) (pyLowerL l0) = true := by simp [h0]
      rw [if_neg hneg]
      obtain ⟨l, hl, hsub⟩ := h
      rcases List.mem_cons.mp hl with rfl | hl
      · rw [h0] at hsub; exact absurd hsub (by simp)
      · exact ih (i + 1) ⟨l, hl, hsub⟩

/-- C8: whenever some line of a stored text file contains the search term
case-insensitively, `search_all` reports that file with a non-empty list of
at most five matches, each carrying a 1-based line number pointing at a
line that does contain the term and the stripped line truncated to 100
characters. -/
theorem search_finds_matching_file (term : List Char)
    (files : List (List Char × List Char)) (f c : List Char)
    (hmem : (f, c) ∈ files)
    (hline : ∃ l ∈ splitNl c, hasSub (pyLowerL term) (pyLowerL l) = true) :
    ∃ ms, (f, ms) ∈ search_all term files ∧ ms ≠ [] ∧ ms.length ≤ 5 ∧
      ∀ p ∈ ms, 1 ≤ p.1 ∧ ∃ l, (splitNl c).get? (p.1 - 1) = some l ∧
        hasSub (pyLowerL term) (pyLowerL l) = true ∧ p.2 = (pyStripL l).take 100 := by
  obtain ⟨l, hl, hsubl⟩ := hline
  have houter : hasSub (pyLowerL term) (pyLowerL c) = true := by
    obtain ⟨u, v, rfl⟩ := (splitNl_decomp c).2 l hl
    exact hasSub_of_decomp hsubl ⟨pyLowerL u, pyLowerL v, by simp [pyLowerL]⟩
  have hsf : searchFile term c = some ((collectMatches term 0 (splitNl c)).take 5) := by
    simp [searchFile, houter]
  refine ⟨(collectMatches term 0 (splitNl c)).take 5, ?_, ?_, List.length_take_le 5 _, ?_⟩
  · exact List.mem_filterMap.mpr ⟨(f, c), hmem, by simp [hsf]⟩
  · have hne := collectMatches_ne_nil term (splitNl c) 0 ⟨l, hl, hsubl⟩
    simp only [ne_eq, List.take_eq_nil_iff]
    push_neg
    exact ⟨by omega, hne⟩
  · intro p hp
    obtain ⟨h1, l2, hget, hsub, hp2⟩ :=
      collectMatches_mem term (splitNl c) 0 p (List.mem_of_mem_take hp)
    exact ⟨by omega, l2, by simpa using hget, hsub, hp2⟩

/-- C8 witness: line 5 of the stored file is `Contact: trump@example.com`
and the query `trump` finds it at line 5. -/
theorem search_finds_matching_file_witness :
    (("doc.txt".data, "A\nB\nC\nD\nContact: trump@example.com".data) ∈
      [(("doc.txt".data : List Char), "A\nB\nC\nD\nContact: trump@example.com".data)]) ∧
    (∃ l ∈ splitNl "A\nB\nC\nD\nContact: trump@example.com".data,
      hasSub (pyLowerL "trump".data) (pyLowerL l) = true) ∧
    (∃ ms, ("doc.txt".data, ms) ∈
        search_all "trump".data
          [("doc.txt".data, "A\nB\nC\nD\nContact: trump@example.com".data)] ∧
      ms ≠ [] ∧ ms.length ≤ 5 ∧
      ∀ p ∈ ms, 1 ≤ p.1 ∧
        ∃ l, (splitNl "A\nB\nC\nD\nContact: trump@example.com".data).get? (p.1 - 1) = some l ∧
          hasSub (pyLowerL "trump".data) (pyLowerL l) = true ∧
          p.2 = (pyStripL l).take 100) ∧
    search_all "trump".data
        [("doc.txt".data, "A\nB\nC\nD\nContact: trump@example.com".data)] =
      [("doc.txt".data, [(5, "Contact: trump@example.com".data)])] :=
  ⟨by decide, by decide,
   search_finds_matching_file "trump".data
     [("doc.txt".data, "A\nB\nC\nD\nContact: trump@example.com".data)]
     "doc.txt".data "A\nB\nC\nD\nContact: trump@example.com".data
     (by decide) (by decide),
   by decide⟩

theorem extractStep_preserve (findall : String → String → List String)
    (tfs : TextFS) (finds : List Finding) (p : PdfFile) (path c : String)
    (h : tfs path = some c) :
    (extractStep findall tfs finds p).2.1 path = some c := by
  unfold extractStep
  by_cases hex : (tfs (withSuffixTxt p.relPath)).isSome
  · simp [hex, h]
  · have hne : path ≠ withSuffixTxt p.relPath := by
      intro e
      rw [e] at h
      rw [h] at hex
      exact hex rfl
    cases hok : p.extractOk <;> simp [hex, hok, textUpdate, hne, h]

theorem extractStep_skips (findall : String → String → List String)
    (tfs : TextFS) (finds : List Finding) (p : PdfFile) (path c : String)
    (h : tfs path = some c) (hp : withSuffixTxt p.relPath = path) :
    (extractStep findall tfs finds p).1 = EOutcome.skipped := by
  unfold extractStep
  rw [hp, h]
  rfl

theorem extractRun_preserve (findall : String → String → List String)
    (path c : String) :
    ∀ (pdfs : List PdfFile) (tfs : TextFS) (finds : List Finding),
      tfs path = some c →
      (extractRun findall tfs finds pdfs).2.1 path = some c ∧
      ∀ pr ∈ (extractRun findall tfs finds pdfs).1,
        withSuffixTxt pr.1.relPath = path → pr.2 = EOutcome.skipped := by
  intro pdfs
  induction pdfs with
  | nil => intro tfs finds h; exact ⟨h, by simp [extractRun]⟩
  | cons p rest ih =>
    intro tfs finds h
    have hstep := extractStep_preserve findall tfs finds p path c h
    obtain ⟨hrest, hskips⟩ :=
      ih (extractStep findall tfs finds p).2.1 (extractStep findall tfs finds p).2.2 hstep
    refine ⟨hrest, ?_⟩
    intro pr hpr
    simp only [extractRun, List.mem_cons] at hpr
    rcases hpr with rfl | hpr
    · intro hpath
      exact extractStep_skips findall tfs finds p path c h hpath
    · exact hskips pr hpr

/-- C4: a derived text-corpus file that already exists is never written
again: after a whole extraction run its content is unchanged, every walked
PDF mapping to it is counted `skipped`, and `download_one` on a record
whose derived `.txt` already exists returns `skipped` leaving the store
untouched. -/
theorem corpus_text_immutable (findall : String → String → List String)
    (tfs : TextFS) (pdfs : List PdfFile) (path c : String)
    (h : tfs path = some c)
    (dfs : TextFS) (it : GHItem) (c2 : String)
    (h2 : dfs (txtNameOf it.name) = some c2) :
    ((extract_all_pdfs findall tfs pdfs).2.1 path = some c) ∧
    (∀ pr ∈ (extract_all_pdfs findall tfs pdfs).1,
      withSuffixTxt pr.1.relPath = path → pr.2 = EOutcome.skipped) ∧
    download_one dfs it = (Outcome.skipped, dfs) := by
  obtain ⟨h1, h2'⟩ := extractRun_preserve findall path c pdfs tfs [] h
  refine ⟨h1, h2', ?_⟩
  unfold download_one
  rw [h2]
  rfl

/-- C4 witness: an existing `doc.txt` survives an extraction run over
`doc.pdf` untouched (the PDF is skipped), and an existing `r.txt` makes
`download_one` skip `r.json`. -/
theorem corpus_text_immutable_witness :
    ((fun q => if q = "doc.txt" then some "KEEP" else none) : TextFS) "doc.txt" = some "KEEP" ∧
    (((fun q => if q = "r.txt" then some "OLD" else none) : TextFS)
      (txtNameOf (⟨"r.json", true, ⟨none, none, none⟩⟩ : GHItem).name) = some "OLD") ∧
    (((extract_all_pdfs (fun _ _ => [])
        (fun q => if q = "doc.txt" then some "KEEP" else none)
        [⟨"doc.pdf", true, "body", some 1, some 0⟩]).2.1 "doc.txt" = some "KEEP") ∧
     (∀ pr ∈ (extract_all_pdfs (fun _ _ => [])
        (fun q => if q = "doc.txt" then some "KEEP" else none)
        [⟨"doc.pdf", true, "body", some 1, some 0⟩]).1,
        withSuffixTxt pr.1.relPath = "doc.txt" → pr.2 = EOutcome.skipped) ∧
     download_one (fun q => if q = "r.txt" then some "OLD" else none)
        ⟨"r.json", true, ⟨none, none, none⟩⟩ =
       (Outcome.skipped, fun q => if q = "r.txt" then some "OLD" else none)) :=
  ⟨rfl, by decide,
   corpus_text_immutable (fun _ _ => [])
     (fun q => if q = "doc.txt" then some "KEEP" else none)
     [⟨"doc.pdf", true, "body", some 1, some 0⟩] "doc.txt" "KEEP" rfl
     (fun q => if q = "r.txt" then some "OLD" else none)
     ⟨"r.json", true, ⟨none, none, none⟩⟩ "OLD" (by decide)⟩

theorem iaProcessItem_local (fs : SizeFS) (it : IAItem) (n : String) (h : n ≠ it.name) :
    (iaProcessItem fs it).2 n = fs n := by
  unfold iaProcessItem
  by_cases hc : iaCheck fs it = true
  · simp [hc]
  · cases hfk : it.fetchOk
    · cases hfl : it.failLen <;> simp [hc, hfk, hfl, sizeUpdate, h]
    · simp [hc, hfk, sizeUpdate, h]

theorem iaRun_local (n : String) : ∀ (items : List IAItem) (fs : SizeFS),
    n ∉ items.map IAItem.name → (iaRun fs items).2 n = fs n := by
  intro items
  induction items with
  | nil => intro fs _; rfl
  | cons it rest ih =>
    intro fs h
    simp only [List.map_cons, List.mem_cons] at h
    push_neg at h
    show (iaRun (iaProcessItem fs it).2 rest).2 n = fs n
    rw [ih (iaProcessItem fs it).2 h.2]
    exact iaProcessItem_local fs it n h.1

theorem iaCheck_congr (fs1 fs2 : SizeFS) (it : IAItem) (h : fs1 it.name = fs2 it.name) :
    iaCheck fs1 it = iaCheck fs2 it := by
  unfold iaCheck
  rw [h]

theorem iaProcessItem_rerun (fs fsL : SizeFS) (it : IAItem)
    (hsz : it.fetchOk = true →
      ((it.contentLen : Int) - (expectedOf it : Int)).natAbs < 1024)
    (hname : fsL it.name = (iaProcessItem fs it).2 it.name) :
    (iaProcessItem fsL it).1 ≠ Outcome.downloaded ∧
    (iaProcessItem fsL it).2 = fsL ∧
    ((iaProcessItem fs it).1 = Outcome.downloaded →
      (iaProcessItem fsL it).1 = Outcome.skipped) := by
  by_cases hc : iaCheck fs it = true
  · have h1 : iaProcessItem fs it = (Outcome.skipped, fs) := by
      simp [iaProcessItem, hc]
    rw [h1] at hname
    have hcL : iaCheck fsL it = true := by
      rw [iaCheck_congr fsL fs it hname]; exact hc
    have h2 : iaProcessItem fsL it = (Outcome.skipped, fsL) := by
      simp [iaProcessItem, hcL]
    rw [h2]
    exact ⟨by simp, rfl, fun _ => rfl⟩
  · cases hfk : it.fetchOk with
    | true =>
      have h1 : iaProcessItem fs it =
          (Outcome.downloaded, sizeUpdate fs it.name it.contentLen) := by
        simp [iaProcessItem, hc, hfk]
      rw [h1] at hname
      have hval : fsL it.name = some it.contentLen := by
        rw [hname]; simp [sizeUpdate]
      have hcL : iaCheck fsL it = true := by
        unfold iaCheck
        rw [hval]
        simpa using hsz hfk
      have h2 : iaProcessItem fsL it = (Outcome.skipped, fsL) := by
        simp [iaProcessItem, hcL]
      rw [h2]
      exact ⟨by simp, rfl, fun _ => rfl⟩
    | false =>
      have h1fst : (iaProcessItem fs it).1 = Outcome.failed := by
        simp [iaProcessItem, hc, hfk]
      have hnotdl : (iaProcessItem fs it).1 = Outcome.downloaded → False := by
        intro hdl; rw [h1fst] at hdl; simp at hdl
      by_cases hcL : iaCheck fsL it = true
      · have h2 : iaProcessItem fsL it = (Outcome.skipped, fsL) := by
          simp [iaProcessItem, hcL]
        rw [h2]
        exact ⟨by simp, rfl, fun hdl => absurd hdl (fun h => hnotdl h)⟩
      · cases hfl : it.failLen with
        | some nv =>
          have h1 : iaProcessItem fs it = (Outcome.failed, sizeUpdate fs it.name nv) := by
            simp [iaProcessItem, hc, hfk, hfl]
          rw [h1] at hname
          have hval : fsL it.name = some nv := by
            rw [hname]; simp [sizeUpdate]
          have h2 : iaProcessItem fsL it = (Outcome.failed, sizeUpdate fsL it.name nv) := by
            simp [iaProcessItem, hcL, hfk, hfl]
          rw [h2]
          refine ⟨by simp, ?_, fun hdl => absurd hdl (fun h => hnotdl h)⟩
          funext m
          by_cases hm : m = it.name
          · rw [hm]
            simp [sizeUpdate, hval]
          · simp [sizeUpdate, hm]
        | none =>
          have h2 : iaProcessItem fsL it = (Outcome.failed, fsL) := by
            simp [iaProcessItem, hcL, hfk, hfl]
          rw [h2]
          exact ⟨by simp, rfl, fun hdl => absurd hdl (fun h => hnotdl h)⟩

theorem iaRun_rerun : ∀ (items : List IAItem) (fs : SizeFS),
    (items.map IAItem.name).Nodup →
    (∀ it ∈ items, it.fetchOk = true →
      ((it.contentLen : Int) - (expectedOf it : Int)).natAbs < 1024) →
    (iaRun (iaRun fs items).2 items).2 = (iaRun fs items).2 ∧
    (∀ p ∈ (iaRun (iaRun fs items).2 items).1, p.2 ≠ Outcome.downloaded) ∧
    (∀ it, (it, Outcome.downloaded) ∈ (iaRun fs items).1 →
      (it, Outcome.skipped) ∈ (iaRun (iaRun fs items).2 items).1) := by
  intro items
  induction items with
  | nil => intro fs _ _; exact ⟨rfl, by simp [iaRun], by simp [iaRun]⟩
  | cons it rest ih =>
    intro fs hnd hsz
    rw [List.map_cons, List.nodup_cons] at hnd
    have hszh := hsz it (List.mem_cons_self it rest)
    have hszr : ∀ x ∈ rest, x.fetchOk = true →
        ((x.contentLen : Int) - (expectedOf x : Int)).natAbs < 1024 :=
      fun x hx => hsz x (List.mem_cons_of_mem it hx)
    have hname : (iaRun (iaProcessItem fs it).2 rest).2 it.name =
        (iaProcessItem fs it).2 it.name :=
      iaRun_local it.name rest (iaProcessItem fs it).2 hnd.1
    obtain ⟨hne2, hpost2, hdl2⟩ :=
      iaProcessItem_rerun fs (iaRun (iaProcessItem fs it).2 rest).2 it hszh hname
    obtain ⟨ihfs, ihne, ihdl⟩ := ih (iaProcessItem fs it).2 hnd.2 hszr
    refine ⟨?_, ?_, ?_⟩
    · show (iaRun (iaProcessItem ((iaRun (iaProcessItem fs it).2 rest).2) it).2 rest).2
        = (iaRun (iaProcessItem fs it).2 rest).2
      rw [hpost2]
      exact ihfs
    · intro p hp
      have hp' : p = (it, (iaProcessItem ((iaRun (iaProcessItem fs it).2 rest).2) it).1) ∨
          p ∈ (iaRun (iaProcessItem ((iaRun (iaProcessItem fs it).2 rest).2) it).2 rest).1 :=
        List.mem_cons.mp hp
      rcases hp' with rfl | hp'
      · exact hne2
      · rw [hpost2] at hp'
        exact ihne p hp'
    · intro x hx
      have hx' : (x, Outcome.downloaded) = (it, (iaProcessItem fs it).1) ∨
          (x, Outcome.downloaded) ∈ (iaRun (iaProcessItem fs it).2 rest).1 :=
        List.mem_cons.mp hx
      rcases hx' with heq | hx'
      · have hxit : x = it := congrArg Prod.fst heq
        have hdl : (iaProcessItem fs it).1 = Outcome.downloaded :=
          (congrArg Prod.snd heq).symm
        rw [hxit]
        show (it, Outcome.skipped) ∈
          ((it, (iaProcessItem ((iaRun (iaProcessItem fs it).2 rest).2) it).1)
            :: (iaRun (iaProcessItem ((iaRun (iaProcessItem fs it).2 rest).2) it).2 rest).1)
        apply List.mem_cons.mpr
        left
        rw [hdl2 hdl]
      · have hmem := ihdl x hx'
        show (x, Outcome.skipped) ∈
          ((it, (iaProcessItem ((iaRun (iaProcessItem fs it).2 rest).2) it).1)
            :: (iaRun (iaProcessItem ((iaRun (iaProcessItem fs it).2 rest).2) it).2 rest).1)
        apply List.mem_cons.mpr
        right
        rw [hpost2]
        exact hmem

theorem download_one_mono (dfs : TextFS) (it : GHItem) (n : String) (c : String)
    (h : dfs n = some c) : (download_one dfs it).2 n = some c := by
  unfold download_one
  by_cases hex : (dfs (txtNameOf it.name)).isSome
  · simp [hex, h]
  · have hne : n ≠ txtNameOf it.name := by
      intro e
      rw [e] at h
      rw [h] at hex
      exact hex rfl
    cases hfk : it.fetchOk <;> simp [hex, hfk, textUpdate, hne, h]

theorem ghRun_mono : ∀ (items : List GHItem) (dfs : TextFS) (n : String) (c : String),
    dfs n = some c → (ghRun dfs items).2 n = some c := by
  intro items
  induction items with
  | nil => intro dfs n c h; exact h
  | cons it rest ih =>
    intro dfs n c h
    show (ghRun (download_one dfs it).2 rest).2 n = some c
    exact ih (download_one dfs it).2 n c (download_one_mono dfs it n c h)

theorem download_one_rerun (dfs dfsL : TextFS) (it : GHItem)
    (hmono : ∀ n c, (download_one dfs it).2 n = some c → dfsL n = some c) :
    (download_one dfsL it).1 ≠ Outcome.downloaded ∧
    (download_one dfsL it).2 = dfsL ∧
    ((download_one dfs it).1 = Outcome.downloaded →
      (download_one dfsL it).1 = Outcome.skipped) := by
  by_cases hex : (dfs (txtNameOf it.name)).isSome
  · obtain ⟨c, hc⟩ := Option.isSome_iff_exists.mp hex
    have h1 : (download_one dfs it).2 = dfs := by simp [download_one, hex]
    have hL : dfsL (txtNameOf it.name) = some c := hmono _ c (by rw [h1]; exact hc)
    have hexL : (dfsL (txtNameOf it.name)).isSome = true := by rw [hL]; rfl
    have h2 : download_one dfsL it = (Outcome.skipped, dfsL) := by
      simp [download_one, hexL]
    rw [h2]
    exact ⟨by simp, rfl, fun _ => rfl⟩
  · cases hfk : it.fetchOk with
    | true =>
      have h1 : (download_one dfs it).2 =
          textUpdate dfs (txtNameOf it.name) (renderRecord it.record) := by
        simp [download_one, hex, hfk]
      have hL : dfsL (txtNameOf it.name) = some (renderRecord it.record) := by
        apply hmono
        rw [h1]
        simp [textUpdate]
      have hexL : (dfsL (txtNameOf it.name)).isSome = true := by rw [hL]; rfl
      have h2 : download_one dfsL it = (Outcome.skipped, dfsL) := by
        simp [download_one, hexL]
      rw [h2]
      exact ⟨by simp, rfl, fun _ => rfl⟩
    | false =>
      have h1fst : (download_one dfs it).1 = Outcome.failed := by
        simp [download_one, hex, hfk]
      have hnotdl : ¬ (download_one dfs it).1 = Outcome.downloaded := by
        rw [h1fst]; simp
      by_cases hexL : (dfsL (txtNameOf it.name)).isSome
      · have h2 : download_one dfsL it = (Outcome.skipped, dfsL) := by
          simp [download_one, hexL]
        rw [h2]
        exact ⟨by simp, rfl, fun hdl => absurd hdl hnotdl⟩
      · have h2 : download_one dfsL it = (Outcome.failed, dfsL) := by
          simp [download_one, hexL, hfk]
        rw [h2]
        exact ⟨by simp, rfl, fun hdl => absurd hdl hnotdl⟩

theorem ghRun_rerun : ∀ (items : List GHItem) (dfs : TextFS),
    (ghRun (ghRun dfs items).2 items).2 = (ghRun dfs items).2 ∧
    (∀ p ∈ (ghRun (ghRun dfs items).2 items).1, p.2 ≠ Outcome.downloaded) ∧
    (∀ it, (it, Outcome.downloaded) ∈ (ghRun dfs items).1 →
      (it, Outcome.skipped) ∈ (ghRun (ghRun dfs items).2 items).1) := by
  intro items
  induction items with
  | nil => intro dfs; exact ⟨rfl, by simp [ghRun], by simp [ghRun]⟩
  | cons it rest ih =>
    intro dfs
    have hmono : ∀ n c, (download_one dfs it).2 n = some c →
        (ghRun (download_one dfs it).2 rest).2 n = some c :=
      fun n c h => ghRun_mono rest (download_one dfs it).2 n c h
    obtain ⟨hne2, hpost2, hdl2⟩ :=
      download_one_rerun dfs (ghRun (download_one dfs it).2 rest).2 it hmono
    obtain ⟨ihfs, ihne, ihdl⟩ := ih (download_one dfs it).2
    refine ⟨?_, ?_, ?_⟩
    · show (ghRun (download_one ((ghRun (download_one dfs it).2 rest).2) it).2 rest).2
        = (ghRun (download_one dfs it).2 rest).2
      rw [hpost2]
      exact ihfs
    · intro p hp
      have hp' : p = (it, (download_one ((ghRun (download_one dfs it).2 rest).2) it).1) ∨
          p ∈ (ghRun (download_one ((ghRun (download_one dfs it).2 rest).2) it).2 rest).1 :=
        List.mem_cons.mp hp
      rcases hp' with rfl | hp'
      · exact hne2
      · rw [hpost2] at hp'
        exact ihne p hp'
    · intro x hx
      have hx' : (x, Outcome.downloaded) = (it, (download_one dfs it).1) ∨
          (x, Outcome.downloaded) ∈ (ghRun (download_one dfs it).2 rest).1 :=
        List.mem_cons.mp hx
      rcases hx' with heq | hx'
      · have hxit : x = it := congrArg Prod.fst heq
        have hdl : (download_one dfs it).1 = Outcome.downloaded :=
          (congrArg Prod.snd heq).symm
        rw [hxit]
        show (it, Outcome.skipped) ∈
          ((it, (download_one ((ghRun (download_one dfs it).2 rest).2) it).1)
            :: (ghRun (download_one ((ghRun (download_one dfs it).2 rest).2) it).2 rest).1)
        apply List.mem_cons.mpr
        left
        rw [hdl2 hdl]
      · have hmem := ihdl x hx'
        show (x, Outcome.skipped) ∈
          ((it, (download_one ((ghRun (download_one dfs it).2 rest).2) it).1)
            :: (ghRun (download_one ((ghRun (download_one dfs it).2 rest).2) it).2 rest).1)
        apply List.mem_cons.mpr
        right
        rw [hpost2]
        exact hmem

theorem statsOf_downloaded_zero (os : List Outcome)
    (h : ∀ o ∈ os, o ≠ Outcome.downloaded) : (statsOf os).downloaded = 0 := by
  simp only [statsOf]
  rw [List.countP_eq_zero]
  intro a ha
  simpa using h a ha

/-- C1 counterexample: a listed file with no declared size whose download
writes 2048 bytes is `Downloaded` again on the second run of the same sync
with the listing unchanged — the second run is not all `Skipped`, because
the defaulted expected size 0 fails the 1024-byte tolerance against the
2048-byte local file. -/
theorem ia_sync_second_run_redownloads :
    (iaRun (fun _ => none) [⟨"a.pdf", none, 2048, true, none⟩]).1 =
      [(⟨"a.pdf", none, 2048, true, none⟩, Outcome.downloaded)] ∧
    (iaRun (iaRun (fun _ => none) [⟨"a.pdf", none, 2048, true, none⟩]).2
        [⟨"a.pdf", none, 2048, true, none⟩]).1 =
      [(⟨"a.pdf", none, 2048, true, none⟩, Outcome.downloaded)] := by decide

/-- C1 (amended): running a sync twice with the remote listing and network
behaviour unchanged yields zero `Downloaded` outcomes on the second run,
with every first-run success `Skipped` — unconditionally for the GitHub
orchestrator (existence of the derived `.txt`), and for the
Internet-Archive orchestrator provided the listed names are distinct and
every successfully fetched item's written size is within 1024 bytes of its
declared size (absent sizes defaulting to 0); without that proviso a
first-run success can be re-downloaded (see the counterexample). -/
theorem sync_idempotent_amended (fs : SizeFS) (items : List IAItem)
    (hnd : (items.map IAItem.name).Nodup)
    (hsz : ∀ it ∈ items, it.fetchOk = true →
      ((it.contentLen : Int) - (expectedOf it : Int)).natAbs < 1024)
    (dfs : TextFS) (gitems : List GHItem) :
    (∀ p ∈ (iaRun (iaRun fs items).2 items).1, p.2 ≠ Outcome.downloaded) ∧
    (statsOf ((iaRun (iaRun fs items).2 items).1.map Prod.snd)).downloaded = 0 ∧
    (∀ it, (it, Outcome.downloaded) ∈ (iaRun fs items).1 →
      (it, Outcome.skipped) ∈ (iaRun (iaRun fs items).2 items).1) ∧
    (∀ p ∈ (ghRun (ghRun dfs gitems).2 gitems).1, p.2 ≠ Outcome.downloaded) ∧
    (statsOf ((ghRun (ghRun dfs gitems).2 gitems).1.map Prod.snd)).downloaded = 0 ∧
    (∀ it, (it, Outcome.downloaded) ∈ (ghRun dfs gitems).1 →
      (it, Outcome.skipped) ∈ (ghRun (ghRun dfs gitems).2 gitems).1) := by
  obtain ⟨_, iane, iadl⟩ := iaRun_rerun items fs hnd hsz
  obtain ⟨_, ghne, ghdl⟩ := ghRun_rerun gitems dfs
  refine ⟨iane, ?_, iadl, ghne, ?_, ghdl⟩
  · apply statsOf_downloaded_zero
    intro o ho
    obtain ⟨p, hp, rfl⟩ := List.mem_map.mp ho
    exact iane p hp
  · apply statsOf_downloaded_zero
    intro o ho
    obtain ⟨p, hp, rfl⟩ := List.mem_map.mp ho
    exact ghne p hp

/-- C1 witness: a one-item source with an accurate declared size and a
one-record folder, synced twice from empty stores. -/
theorem sync_idempotent_amended_witness :
    (List.map IAItem.name [⟨"a.pdf", some 2000, 2000, true, none⟩]).Nodup ∧
    (∀ it ∈ ([⟨"a.pdf", some 2000, 2000, true, none⟩] : List IAItem),
      it.fetchOk = true →
      ((it.contentLen : Int) - (expectedOf it : Int)).natAbs < 1024) ∧
    ((∀ p ∈ (iaRun (iaRun (fun _ => none) [⟨"a.pdf", some 2000, 2000, true, none⟩]).2
        [⟨"a.pdf", some 2000, 2000, true, none⟩]).1, p.2 ≠ Outcome.downloaded) ∧
     (statsOf ((iaRun (iaRun (fun _ => none) [⟨"a.pdf", some 2000, 2000, true, none⟩]).2
        [⟨"a.pdf", some 2000, 2000, true, none⟩]).1.map Prod.snd)).downloaded = 0 ∧
     (∀ it, (it, Outcome.downloaded) ∈
        (iaRun (fun _ => none) [⟨"a.pdf", some 2000, 2000, true, none⟩]).1 →
       (it, Outcome.skipped) ∈
        (iaRun (iaRun (fun _ => none) [⟨"a.pdf", some 2000, 2000, true, none⟩]).2
          [⟨"a.pdf", some 2000, 2000, true, none⟩]).1) ∧
     (∀ p ∈ (ghRun (ghRun (fun _ => none) [⟨"r.json", true, ⟨some "t", some [], some []⟩⟩]).2
        [⟨"r.json", true, ⟨some "t", some [], some []⟩⟩]).1, p.2 ≠ Outcome.downloaded) ∧
     (statsOf ((ghRun (ghRun (fun _ => none)
          [⟨"r.json", true, ⟨some "t", some [], some []⟩⟩]).2
        [⟨"r.json", true, ⟨some "t", some [], some []⟩⟩]).1.map Prod.snd)).downloaded = 0 ∧
     (∀ it, (it, Outcome.downloaded) ∈
        (ghRun (fun _ => none) [⟨"r.json", true, ⟨some "t", some [], some []⟩⟩]).1 →
       (it, Outcome.skipped) ∈
        (ghRun (ghRun (fun _ => none) [⟨"r.json", true, ⟨some "t", some [], some []⟩⟩]).2
          [⟨"r.json", true, ⟨some "t", some [], some []⟩⟩]).1)) :=
  ⟨by decide, by decide,
   sync_idempotent_amended (fun _ => none) [⟨"a.pdf", some 2000, 2000, true, none⟩]
     (by decide) (by decide)
     (fun _ => none) [⟨"r.json", true, ⟨some "t", some [], some []⟩⟩]⟩

end EpsteinDownloader
